import Mathlib

/-!
Shallow embedding of the two tools of `copilot-money-cli`
(`src/tools/capture_graphql_ops.py` and `src/tools/get_token.py`),
together with proofs about their request-interception logic.

Strings are modelled by Lean `String` values; the helper functions of the
Python standard library that the tools rely on (`str.strip`, `str.split`,
`str.upper`, `str.lower`, `re.sub`, `re.match`, `re.search` on the concrete
patterns appearing in the source) are embedded as executable Lean functions
on `List Char`.  The SHA-256 hash used by `_stable_id` is a call into
`hashlib`; it is kept as an explicit function parameter `h : String → String`
standing for `lambda s: hashlib.sha256(s.encode("utf-8")).hexdigest()`.
-/

/-- Whitespace as recognised by Python `str.strip` / `str.split` (the
White_Space code points of `str.isspace`). -/
def py_isspace (c : Char) : Bool :=
  c = ' ' || c = '\t' || c = '\n' || c = '\r' ||
  c = (Char.ofNat 0x0b) || c = (Char.ofNat 0x0c) ||
  c = (Char.ofNat 0x1c) || c = (Char.ofNat 0x1d) ||
  c = (Char.ofNat 0x1e) || c = (Char.ofNat 0x1f) ||
  c = (Char.ofNat 0x85) || c = (Char.ofNat 0xa0) ||
  c = (Char.ofNat 0x1680) ||
  ((Char.ofNat 0x2000) ≤ c && c ≤ (Char.ofNat 0x200a)) ||
  c = (Char.ofNat 0x2028) || c = (Char.ofNat 0x2029) ||
  c = (Char.ofNat 0x202f) || c = (Char.ofNat 0x205f) ||
  c = (Char.ofNat 0x3000)

/-- Python `s.strip()` on the character list of a string: drop leading and
trailing whitespace. -/
def pyStripChars (l : List Char) : List Char :=
  ((l.dropWhile py_isspace).reverse.dropWhile py_isspace).reverse

/-- Python `s.strip()`. -/
def pyStrip (s : String) : String :=
  ⟨pyStripChars s.data⟩

/-- Worker for Python `s.split()` (split on whitespace runs, no empty
fields); `acc` holds the characters of the token currently being read, in
reverse order. -/
def splitWsAux : List Char → List Char → List (List Char)
  | [], acc => if acc.isEmpty then [] else [acc.reverse]
  | c :: cs, acc =>
    if py_isspace c then
      if acc.isEmpty then splitWsAux cs [] else acc.reverse :: splitWsAux cs []
    else splitWsAux cs (c :: acc)

/-- Python `s.split()` (no separator argument). -/
def pySplitWs (l : List Char) : List (List Char) :=
  splitWsAux l []

/-- Python `" ".join(words)` on character lists. -/
def joinSpace : List (List Char) → List Char
  | [] => []
  | [w] => w
  | w :: ws => w ++ ' ' :: joinSpace ws

/-- `_normalize_query` of `capture_graphql_ops.py`:
`" ".join(query.strip().split())`. -/
def _normalize_query (query : String) : String :=
  ⟨joinSpace (pySplitWs (pyStripChars query.data))⟩

/-- `_stable_id` of `capture_graphql_ops.py`:
`hashlib.sha256(_normalize_query(query).encode("utf-8")).hexdigest()[:16]`
prefixed with the operation name and a colon.  The hash is the function
parameter `h` (SHA-256 hex digest of the UTF-8 encoding). -/
def _stable_id (h : String → String) (operation_name query : String) : String :=
  let digest : String := ⟨(h (_normalize_query query)).data.take 16⟩
  operation_name ++ ":" ++ digest

/-- Boolean test that `p` is a prefix of `l`. -/
def hasPre : List Char → List Char → Bool
  | [], _ => true
  | _ :: _, [] => false
  | p :: ps, c :: cs => p = c && hasPre ps cs

/-- Boolean test that `needle` occurs contiguously somewhere in the second
list. -/
def hasSub (needle : List Char) : List Char → Bool
  | [] => hasPre needle []
  | c :: cs => hasPre needle (c :: cs) || hasSub needle cs

/-- Keyword step of `_operation_kind`.  The source pattern is the raw string
`r"^\\s*(query|mutation|subscription)\\b"`; inside a raw string `\\b` is the
two regex characters backslash and `b`, i.e. an escaped LITERAL backslash
followed by the letter `b` (not a word boundary).  At the current position
this tries the three alternatives in order, each of which must be followed by
the literal characters backslash and `b`. -/
def opKw (l : List Char) : Option String :=
  if hasPre ("query".data ++ [(Char.ofNat 92), 'b']) l then some "query"
  else if hasPre ("mutation".data ++ [(Char.ofNat 92), 'b']) l then some "mutation"
  else if hasPre ("subscription".data ++ [(Char.ofNat 92), 'b']) l then some "subscription"
  else none

/-- Greedy `s*` of the pattern with backtracking: consume as many letters `s`
as possible, falling back to fewer when the rest of the pattern fails. -/
def opTryS : List Char → Option String
  | 's' :: t => (opTryS t).orElse (fun _ => opKw ('s' :: t))
  | l => opKw l

/-- `_operation_kind` of `capture_graphql_ops.py`:
`re.match(r"^\\s*(query|mutation|subscription)\\b", query)`, returning the
matched keyword or `"unknown"`.  Because of the doubled backslashes the
pattern anchors on a LITERAL backslash, then `s*`, then the keyword, then the
literal characters backslash `b`. -/
def _operation_kind (query : String) : String :=
  match query.data with
  | (Char.ofNat 92) :: rest => (opTryS rest).getD "unknown"
  | _ => "unknown"

/-- The character class `[a-zA-Z0-9._-]` of `safe_filename`. -/
def isSafeChar (c : Char) : Bool :=
  c.isAlpha || c.isDigit || c = '.' || c = '_' || c = '-'

/-- `re.sub(r"[^a-zA-Z0-9._-]+", "_", s)`: each maximal run of characters
outside the class is replaced by a single underscore.  `inRun` records
whether the previous character belonged to such a run. -/
def subRunsAux : Bool → List Char → List Char
  | _, [] => []
  | inRun, c :: cs =>
    if isSafeChar c then c :: subRunsAux false cs
    else if inRun then subRunsAux true cs
    else '_' :: subRunsAux true cs

/-- `safe_filename` of `capture_graphql_ops.py`. -/
def safe_filename (s : String) : String :=
  let s1 := pyStrip s
  if s1 = "" then "unknown"
  else
    let s2 : String := ⟨subRunsAux false s1.data⟩
    if s2.length > 120 then ⟨s2.data.take 120⟩ else s2

/-- JSON values, as far as the tools inspect them. -/
inductive JVal where
  | jnull : JVal
  | jbool : Bool → JVal
  | jnum : Int → JVal
  | jstr : String → JVal
  | jarr : List JVal → JVal
  | jobj : List (String × JVal) → JVal

/-- Python `dict.get` on the field list of a JSON object. -/
def jGet (fields : List (String × JVal)) (k : String) : Option JVal :=
  (fields.find? (fun p => p.1 == k)).map (fun p => p.2)

/-- Python `s.upper()` (the method strings compared by the tools are ASCII). -/
def pyUpper (s : String) : String :=
  ⟨s.data.map Char.toUpper⟩

/-- Python `s.lower()` (the scheme strings compared by the tools are ASCII). -/
def pyLower (s : String) : String :=
  ⟨s.data.map Char.toLower⟩

/-- Python `sorted` on a list of strings (ascending code-point
lexicographic order, which is the order of the `String` linear order). -/
def pySortedStrings (l : List String) : List String :=
  l.mergeSort (fun a b => decide (a ≤ b))

namespace CaptureOps

/-- A network request as seen by the `page.on("request", ...)` callback of
`capture_graphql_ops.py`.  `postJson` is the JSON value of the request body
when the body parses as JSON, and `none` otherwise; it stands for the result
of the `post_data_json` accessor or, failing that, of `json.loads` on the raw
body text, exactly as computed by `_try_request_json`. -/
structure GRequest where
  url : String
  method : String
  postJson : Option JVal

/-- `_try_request_json` of `capture_graphql_ops.py`: the parsed body when it
is a JSON object (a `dict`), else `None`. -/
def _try_request_json (req : GRequest) : Option (List (String × JVal)) :=
  match req.postJson with
  | some (JVal.jobj fields) => some fields
  | _ => none

/-- The record stored in `ops` for one accepted request (the dict literal of
lines 177-185 of `capture_graphql_ops.py`). -/
structure CapturedOperation where
  operationName : String
  stableId : String
  kind : String
  url : String
  method : String
  variableKeys : List String
  query : String
deriving DecidableEq

/-- The mutable state of the capture run: the insertion-ordered dict `ops`
and the four `dbg` counters. -/
structure CState where
  ops : List (String × CapturedOperation)
  graphql_seen : Nat
  graphql_parsed : Nat
  graphql_skipped_no_query : Nat
  graphql_skipped_introspection : Nat
deriving DecidableEq

/-- The initial state (`ops = {}`, all counters zero). -/
def initCState : CState :=
  ⟨[], 0, 0, 0, 0⟩

/-- Python dict assignment `d[k] = v` on an insertion-ordered association
list: replace in place if the key is present, else append. -/
def upsert (d : List (String × CapturedOperation)) (k : String)
    (v : CapturedOperation) : List (String × CapturedOperation) :=
  match d with
  | [] => [(k, v)]
  | p :: rest => if p.1 = k then (k, v) :: rest else p :: upsert rest k v

/-- The introspection test of line 162 of `capture_graphql_ops.py`:
`re.search(r"__schema\\b", query) or re.search(r"__type\\b", query)`.
In the raw strings `\\b` denotes an escaped LITERAL backslash followed by
the letter `b`, so each pattern matches exactly the literal ten-character
text `__schema` (resp. `__type`) + backslash + `b` as a substring. -/
def introspectionHit (query : String) : Bool :=
  hasSub ("__schema".data ++ [(Char.ofNat 92), 'b']) query.data ||
  hasSub ("__type".data ++ [(Char.ofNat 92), 'b']) query.data

/-- `operationName` derivation (lines 166-168): use the field when it is a
string whose strip is non-empty, else the literal `"anonymous"`; the
UNSTRIPPED original value is kept. -/
def deriveOperationName (payload : List (String × JVal)) : String :=
  match jGet payload "operationName" with
  | some (JVal.jstr s) => if pyStrip s = "" then "anonymous" else s
  | _ => "anonymous"

/-- `variable_keys` derivation (lines 170-173): the sorted keys of the
`variables` object when present and an object, else empty.  The keys of a
JSON object are already strings, so `str(k)` is the identity. -/
def deriveVariableKeys (payload : List (String × JVal)) : List String :=
  match jGet payload "variables" with
  | some (JVal.jobj fields) => pySortedStrings (fields.map (fun p => p.1))
  | _ => []

/-- The key/value pair written to `ops` for an accepted request. -/
def buildRecord (h : String → String) (req : GRequest)
    (payload : List (String × JVal)) (query : String) :
    String × CapturedOperation :=
  let operation_name := deriveOperationName payload
  let key := _stable_id h operation_name query
  (key,
    { operationName := operation_name
      stableId := key
      kind := _operation_kind query
      url := req.url
      method := req.method
      variableKeys := deriveVariableKeys payload
      query := query })

/-- The `on_request` callback of `capture_graphql_ops.py` (lines 145-185) as
a state transformer. -/
def on_request (h : String → String) (st : CState) (req : GRequest) : CState :=
  if req.url ≠ "https://app.copilot.money/api/graphql" then st
  else if pyUpper req.method ≠ "POST" then st
  else
    let st1 := { st with graphql_seen := st.graphql_seen + 1 }
    match _try_request_json req with
    | none => st1
    | some payload =>
      let st2 := { st1 with graphql_parsed := st1.graphql_parsed + 1 }
      match jGet payload "query" with
      | some (JVal.jstr query) =>
        if introspectionHit query then
          { st2 with graphql_skipped_introspection :=
              st2.graphql_skipped_introspection + 1 }
        else
          let kv := buildRecord h req payload query
          { st2 with ops := upsert st2.ops kv.1 kv.2 }
      | _ =>
        { st2 with graphql_skipped_no_query := st2.graphql_skipped_no_query + 1 }

/-- Processing a whole request stream from the initial state. -/
def runCapture (h : String → String) (rs : List GRequest) : CState :=
  rs.foldl (on_request h) initCState

/-- The key/value pair a request contributes to `ops`, or `none` when the
callback rejects it on one of its early-return paths. -/
def acceptedRecord (h : String → String) (req : GRequest) :
    Option (String × CapturedOperation) :=
  if req.url ≠ "https://app.copilot.money/api/graphql" then none
  else if pyUpper req.method ≠ "POST" then none
  else
    match _try_request_json req with
    | none => none
    | some payload =>
      match jGet payload "query" with
      | some (JVal.jstr query) =>
        if introspectionHit query then none
        else some (buildRecord h req payload query)
      | _ => none

/-- Dict lookup on the store. -/
def lookupStore : List (String × CapturedOperation) → String →
    Option CapturedOperation
  | [], _ => none
  | p :: d, k => if p.1 = k then some p.2 else lookupStore d k

/-- Folding a list of dict writes over a store. -/
def applyInserts (d : List (String × CapturedOperation))
    (ins : List (String × CapturedOperation)) :
    List (String × CapturedOperation) :=
  ins.foldl (fun d p => upsert d p.1 p.2) d

/-- The value attached to `k` by the LAST element of `ins` carrying key `k`,
if any. -/
def lastInserted : List (String × CapturedOperation) → String →
    Option CapturedOperation
  | [], _ => none
  | p :: ins, k =>
    match lastInserted ins k with
    | some v => some v
    | none => if p.1 = k then some p.2 else none

/-- Python `s.split(sep)` (full split on a single-character separator). -/
def splitAll (sep : Char) : List Char → List (List Char)
  | [] => [[]]
  | c :: cs =>
    let r := splitAll sep cs
    if c = sep then [] :: r
    else
      match r with
      | w :: ws => (c :: w) :: ws
      | [] => [[c]]

/-- `str(stable_id).split(":")[-1]` of line 239 of `capture_graphql_ops.py`:
the last colon-separated segment (`split` always yields a non-empty list, so
the `[-1]` index is total). -/
def lastColonSeg (s : String) : String :=
  ⟨((splitAll (Char.ofNat 58) s.data).getLast?).getD []⟩

/-- The per-operation artifact file name written by lines 237-242 of
`capture_graphql_ops.py`.  `item.get("stableId") or _stable_id(...)` falls
back to recomputing the id when the stored one is falsy (the empty string in
this typed model). -/
def artifactFileName (h : String → String) (item : CapturedOperation) : String :=
  let stable_id :=
    if item.stableId = "" then _stable_id h item.operationName item.query
    else item.stableId
  let digest := lastColonSeg stable_id
  safe_filename item.operationName ++ "--" ++ digest ++ ".graphql"

end CaptureOps

namespace GetToken

/-- A network request as seen by the `page.on("request", ...)` callback of
`get_token.py`.  `authorization` is `req.headers.get("authorization")`
(`none` when the header is absent). -/
structure TRequest where
  url : String
  method : String
  authorization : Option String
deriving DecidableEq

/-- Boolean `str.startswith`. -/
def pyStartswith (s pre : String) : Bool :=
  hasPre pre.data s.data

/-- Python `auth.split(" ", 1)` recast as an option: `some (before, after)`
when the value contains a space (the split then has exactly two parts),
`none` when it does not (the split then has one part, failing the
`len(parts) == 2` test). -/
def splitOnFirstSpace : List Char → Option (List Char × List Char)
  | [] => none
  | c :: cs =>
    if c = ' ' then some ([], cs)
    else (splitOnFirstSpace cs).map (fun p => (c :: p.1, p.2))

/-- The `on_request` callback of `get_token.py` (lines 108-120) as a
transformer of the write-once `token` cell. -/
def on_request (token : Option String) (req : TRequest) : Option String :=
  match token with
  | some _ => token
  | none =>
    if pyStartswith req.url "https://app.copilot.money/api/graphql" = false then
      none
    else
      match req.authorization with
      | none => none
      | some auth =>
        if auth = "" then none
        else
          match splitOnFirstSpace auth.data with
          | some parts =>
            if pyLower ⟨parts.1⟩ = "bearer" then some (pyStrip ⟨parts.2⟩)
            else none
          | none => none

/-- Processing a whole request stream from the unset token cell. -/
def runToken (rs : List TRequest) : Option String :=
  rs.foldl on_request none

/-- Whether a request passes every check of the callback (URL, header
present and non-empty, two space-separated parts, case-insensitive
`Bearer` scheme). -/
def qualifies (req : TRequest) : Bool :=
  pyStartswith req.url "https://app.copilot.money/api/graphql" &&
  match req.authorization with
  | none => false
  | some auth =>
    !(auth = "") &&
    match splitOnFirstSpace auth.data with
    | some parts => pyLower ⟨parts.1⟩ = "bearer"
    | none => false

/-- The token the callback would record from a fresh cell, or `none` when
the request does not qualify. -/
def capturedToken (req : TRequest) : Option String :=
  match req.authorization with
  | none => none
  | some auth =>
    if pyStartswith req.url "https://app.copilot.money/api/graphql" &&
        !(auth = "") then
      match splitOnFirstSpace auth.data with
      | some parts =>
        if pyLower ⟨parts.1⟩ = "bearer" then some (pyStrip ⟨parts.2⟩)
        else none
      | none => none
    else none

/-- The token captured by the first qualifying request of a stream. -/
def firstCaptured : List TRequest → Option String
  | [] => none
  | r :: rs =>
    match capturedToken r with
    | some t => some t
    | none => firstCaptured rs

/-- Observable outcome of the tail of `get_token.main` (lines 234-246):
process exit code, the bytes written to stdout, and whether a
capture-failure diagnostic went to the error stream. -/
structure MainOutcome where
  exitCode : Nat
  stdoutData : String
  stderrFailure : Bool
deriving DecidableEq

/-- Lines 234-246 of `get_token.py`: `if not token:` (true for an unset cell
AND for an empty string) prints a capture-failure message to stderr (one of
two wordings, both failure reports) and returns 1; otherwise exactly the
token bytes go to stdout via `sys.stdout.write` (no newline) and the return
is 0. -/
def finishRun (token : Option String) : MainOutcome :=
  match token with
  | none => ⟨1, "", true⟩
  | some t => if t = "" then ⟨1, "", true⟩ else ⟨0, t, false⟩

end GetToken

/-- All characters of `l` are Python whitespace. -/
def AllWs (l : List Char) : Prop :=
  ∀ c ∈ l, py_isspace c = true

/-- A non-empty run of non-whitespace characters (a token of `str.split`). -/
def IsTok (t : List Char) : Prop :=
  t ≠ [] ∧ ∀ c ∈ t, py_isspace c = false

/-- `Interleaves body ts` : `body` is the tokens `ts` in order, separated by
non-empty whitespace runs, with optional trailing whitespace, and starting
directly with the first token (or all whitespace when there is none). -/
inductive Interleaves : List Char → List (List Char) → Prop where
  | allws : ∀ w, AllWs w → Interleaves w []
  | last : ∀ t trail, IsTok t → AllWs trail → Interleaves (t ++ trail) [t]
  | more : ∀ t sep rest ts, IsTok t → AllWs sep → sep ≠ [] → ts ≠ [] →
      Interleaves rest ts → Interleaves (t ++ sep ++ rest) (t :: ts)

/-- The string `s` consists of the tokens `ts` in order, with arbitrary
leading/trailing whitespace and arbitrary positive-length internal
whitespace runs.  Two strings differ only in leading/trailing whitespace and
in the run-lengths of internal whitespace exactly when they relate to the
same token list. -/
def HasTokens (s : String) (ts : List (List Char)) : Prop :=
  ∃ lead body, AllWs lead ∧ Interleaves body ts ∧ s.data = lead ++ body

/-- The sanitization exactly as the specification words it: every character
outside `[A-Za-z0-9._-]` is replaced by an underscore, and the result is
truncated to 120 characters. -/
def claimSanitize (s : String) : String :=
  ⟨(s.data.map (fun c => if isSafeChar c then c else '_')).take 120⟩

/-- Run collapsing, stated independently of `subRunsAux`: a character, safe
or not, is looked at together with the preceding character; an unsafe
character yields an underscore exactly when it starts a run (no predecessor,
or a safe predecessor). -/
def collapseAux (prev : Option Char) : List Char → List Char
  | [] => []
  | c :: cs =>
    if isSafeChar c then c :: collapseAux (some c) cs
    else
      match prev with
      | some p =>
        if isSafeChar p then '_' :: collapseAux (some c) cs
        else collapseAux (some c) cs
      | none => '_' :: collapseAux (some c) cs

/-- The sanitization as amended: strip leading and trailing whitespace, map
an empty result to `"unknown"`, replace each maximal RUN of characters
outside `[A-Za-z0-9._-]` by a single underscore, truncate to 120
characters. -/
def amendedSanitize (s : String) : String :=
  let s1 := pyStrip s
  if s1 = "" then "unknown"
  else ⟨(collapseAux none s1.data).take 120⟩

instance (l : List Char) : Decidable (AllWs l) := by
  unfold AllWs; infer_instance

instance (t : List Char) : Decidable (IsTok t) := by
  unfold IsTok; infer_instance

/-! ## Lemmas about Python `str.split` and `_normalize_query` -/

theorem splitWsAux_allws (w : List Char) (hw : AllWs w) :
    splitWsAux w [] = [] := by
  induction w with
  | nil => rfl
  | cons c cs ih =>
    have hc : py_isspace c = true := hw c (List.mem_cons_self _ _)
    have hcs : AllWs cs := fun d hd => hw d (List.mem_cons_of_mem _ hd)
    simp [splitWsAux, hc, List.isEmpty, ih hcs]

theorem splitWsAux_allws_acc (w : List Char) (a : Char) (acc : List Char)
    (hw : AllWs w) :
    splitWsAux w (a :: acc) = [(a :: acc).reverse] := by
  induction w with
  | nil => simp [splitWsAux, List.isEmpty]
  | cons c cs ih =>
    have hc : py_isspace c = true := hw c (List.mem_cons_self _ _)
    have hcs : AllWs cs := fun d hd => hw d (List.mem_cons_of_mem _ hd)
    simp [splitWsAux, hc, List.isEmpty, splitWsAux_allws cs hcs]

theorem splitWsAux_tok (t : List Char) (ht : ∀ c ∈ t, py_isspace c = false) :
    ∀ r acc, splitWsAux (t ++ r) acc = splitWsAux r (t.reverse ++ acc) := by
  induction t with
  | nil => intro r acc; simp
  | cons c cs ih =>
    intro r acc
    have hc : py_isspace c = false := ht c (List.mem_cons_self _ _)
    have hcs : ∀ d ∈ cs, py_isspace d = false :=
      fun d hd => ht d (List.mem_cons_of_mem _ hd)
    have step : splitWsAux ((c :: cs) ++ r) acc = splitWsAux (cs ++ r) (c :: acc) := by
      simp [splitWsAux, hc]
    rw [step, ih hcs r (c :: acc)]
    simp

theorem splitWsAux_lead (lead : List Char) (hl : AllWs lead) :
    ∀ body, splitWsAux (lead ++ body) [] = splitWsAux body [] := by
  induction lead with
  | nil => intro body; rfl
  | cons c cs ih =>
    intro body
    have hc : py_isspace c = true := hl c (List.mem_cons_self _ _)
    have hcs : AllWs cs := fun d hd => hl d (List.mem_cons_of_mem _ hd)
    simp [splitWsAux, hc, List.isEmpty, ih hcs]

theorem splitWsAux_trail (x w : List Char) (hw : AllWs w) :
    ∀ acc, splitWsAux (x ++ w) acc = splitWsAux x acc := by
  induction x with
  | nil =>
    intro acc
    cases acc with
    | nil => simpa [splitWsAux, List.isEmpty] using splitWsAux_allws w hw
    | cons a as =>
      simpa [splitWsAux, List.isEmpty] using splitWsAux_allws_acc w a as hw
  | cons c cs ih =>
    intro acc
    by_cases hc : py_isspace c = true
    · cases acc with
      | nil => simp [splitWsAux, hc, List.isEmpty, ih]
      | cons a as => simp [splitWsAux, hc, List.isEmpty, ih]
    · simp [splitWsAux, hc, List.isEmpty, ih]

theorem interleaves_split (body : List Char) (ts : List (List Char))
    (h : Interleaves body ts) : splitWsAux body [] = ts := by
  induction h with
  | allws w hw => exact splitWsAux_allws w hw
  | last t trail ht htrail =>
    obtain ⟨htne, htc⟩ := ht
    rw [splitWsAux_tok t htc trail []]
    cases hrev : t.reverse with
    | nil => exact absurd (by simpa using hrev) htne
    | cons a as =>
      have := splitWsAux_allws_acc trail a as htrail
      simp only [List.append_nil, hrev, this]
      rw [← hrev]
      simp
  | more t sep rest ts ht hsep hsepne htsne hrest ih =>
    obtain ⟨htne, htc⟩ := ht
    rw [List.append_assoc, splitWsAux_tok t htc (sep ++ rest) [], List.append_nil]
    cases sep with
    | nil => exact absurd rfl hsepne
    | cons c cs =>
      have hc : py_isspace c = true := hsep c (List.mem_cons_self _ _)
      have hcs : AllWs cs := fun d hd => hsep d (List.mem_cons_of_mem _ hd)
      have step : splitWsAux ((c :: cs) ++ rest) t.reverse
          = t.reverse.reverse :: splitWsAux (cs ++ rest) [] := by
        cases hrev : t.reverse with
        | nil => exact absurd (by simpa using hrev) htne
        | cons a as => simp [splitWsAux, hc, List.isEmpty]
      rw [step, List.reverse_reverse, splitWsAux_lead cs hcs rest, ih]

theorem pySplitWs_strip (l : List Char) :
    pySplitWs (pyStripChars l) = pySplitWs l := by
  unfold pySplitWs pyStripChars
  set d := l.dropWhile py_isspace with hd
  have hlead : AllWs (l.takeWhile py_isspace) :=
    fun c hc => List.mem_takeWhile_imp hc
  have hsplit_l : splitWsAux l [] = splitWsAux d [] := by
    conv_lhs => rw [← List.takeWhile_append_dropWhile py_isspace l]
    exact splitWsAux_lead _ hlead _
  have hdecomp : d = (d.reverse.dropWhile py_isspace).reverse ++
      (d.reverse.takeWhile py_isspace).reverse := by
    conv_lhs => rw [← List.reverse_reverse d,
      ← List.takeWhile_append_dropWhile py_isspace d.reverse]
    rw [List.reverse_append]
  have htrail : AllWs ((d.reverse.takeWhile py_isspace).reverse) := by
    intro c hc
    rw [List.mem_reverse] at hc
    exact List.mem_takeWhile_imp hc
  rw [hsplit_l]
  conv_rhs => rw [hdecomp]
  exact (splitWsAux_trail _ _ htrail []).symm

theorem hasTokens_split (s : String) (ts : List (List Char))
    (h : HasTokens s ts) : pySplitWs s.data = ts := by
  obtain ⟨lead, body, hlead, hinter, heq⟩ := h
  unfold pySplitWs
  rw [heq, splitWsAux_lead lead hlead body]
  exact interleaves_split body ts hinter

theorem hasTokens_normalize (q : String) (ts : List (List Char))
    (h : HasTokens q ts) : _normalize_query q = ⟨joinSpace ts⟩ := by
  unfold _normalize_query
  rw [pySplitWs_strip q.data, hasTokens_split q ts h]

/-! ## Claim C2 -/

/-- C2: for every operationName and every pair of query strings carrying the
same token list `ts` (that is, differing only in leading/trailing whitespace
and in the run-lengths of internal whitespace runs), `_stable_id` returns
the same value, and that value is the operationName, a colon, and the first
16 hex characters of the content hash of the whitespace-normalized query. -/
theorem C2_stable_id_deterministic (h : String → String)
    (operation_name q1 q2 : String) (ts : List (List Char))
    (h1 : HasTokens q1 ts) (h2 : HasTokens q2 ts) :
    _stable_id h operation_name q1 = _stable_id h operation_name q2
    ∧ _stable_id h operation_name q1
      = operation_name ++ ":" ++ ⟨(h (_normalize_query q1)).data.take 16⟩ := by
  constructor
  · unfold _stable_id
    rw [hasTokens_normalize q1 ts h1, hasTokens_normalize q2 ts h2]
  · rfl

/-- Witness for C2 at a concrete hash function, operation name, and query
pair differing in leading, internal, and trailing whitespace. -/
theorem C2_witness :
    HasTokens "  query   Q1 " [['q','u','e','r','y'], ['Q','1']]
    ∧ HasTokens "query Q1" [['q','u','e','r','y'], ['Q','1']]
    ∧ _stable_id (fun s => s) "GetThing" "  query   Q1 "
      = _stable_id (fun s => s) "GetThing" "query Q1" := by
  have hrest1 : Interleaves ['Q','1',' '] [['Q','1']] :=
    Interleaves.last ['Q','1'] [' '] ⟨by decide, by decide⟩ (by decide)
  have hbody1 :
      Interleaves ['q','u','e','r','y',' ',' ',' ','Q','1',' ']
        [['q','u','e','r','y'], ['Q','1']] := by
    have hm := Interleaves.more ['q','u','e','r','y'] [' ',' ',' ']
      ['Q','1',' '] [['Q','1']] ⟨by decide, by decide⟩ (by decide)
      (by decide) (by decide) hrest1
    simpa using hm
  have hrest2 : Interleaves ['Q','1'] [['Q','1']] := by
    have hl := Interleaves.last ['Q','1'] [] ⟨by decide, by decide⟩
      (by decide)
    simpa using hl
  have hbody2 :
      Interleaves ['q','u','e','r','y',' ','Q','1']
        [['q','u','e','r','y'], ['Q','1']] := by
    have hm := Interleaves.more ['q','u','e','r','y'] [' ']
      ['Q','1'] [['Q','1']] ⟨by decide, by decide⟩ (by decide)
      (by decide) (by decide) hrest2
    simpa using hm
  have h1 : HasTokens "  query   Q1 " [['q','u','e','r','y'], ['Q','1']] :=
    ⟨[' ',' '], ['q','u','e','r','y',' ',' ',' ','Q','1',' '],
      by decide, hbody1, by decide⟩
  have h2 : HasTokens "query Q1" [['q','u','e','r','y'], ['Q','1']] :=
    ⟨[], ['q','u','e','r','y',' ','Q','1'], by decide, hbody2, by decide⟩
  exact ⟨h1, h2,
    (C2_stable_id_deterministic (fun s => s) "GetThing" _ _ _ h1 h2).1⟩

/-! ## Claims C1 and C6 (behaviour of the doubled-backslash patterns) -/

/-- C1 (code evaluation at the failing input): the introspection request
with query `query { __schema { types { name } } }` is NOT skipped by the
callback — the operation is stored and `skippedIntrospection` stays 0 —
because the raw-string pattern `r"__schema\\b"` only matches the literal
text `__schema` + backslash + `b`, never a plain `__schema` token. -/
theorem C1_code_eval :
    (CaptureOps.on_request (fun _ => "0123456789abcdef0123456789abcdef")
        CaptureOps.initCState
        { url := "https://app.copilot.money/api/graphql"
          method := "POST"
          postJson := some (JVal.jobj
            [("operationName", JVal.jstr "Introspect"),
             ("query", JVal.jstr "query { __schema { types { name } } }")]) }
      ).graphql_skipped_introspection = 0
    ∧ (CaptureOps.on_request (fun _ => "0123456789abcdef0123456789abcdef")
        CaptureOps.initCState
        { url := "https://app.copilot.money/api/graphql"
          method := "POST"
          postJson := some (JVal.jobj
            [("operationName", JVal.jstr "Introspect"),
             ("query", JVal.jstr "query { __schema { types { name } } }")]) }
      ).ops.length = 1 := by
  exact ⟨rfl, rfl⟩

/-- C6 (code evaluation at the failing input): `_operation_kind` returns
`"unknown"` on queries that begin with the keywords `query` or `mutation`
(with or without leading whitespace), while it does return a keyword on the
literal backslash text the doubled-backslash pattern actually describes. -/
theorem C6_code_eval :
    _operation_kind "query GetUser { id }" = "unknown"
    ∧ _operation_kind "  mutation M { x }" = "unknown"
    ∧ _operation_kind "\\query\\b rest" = "query" := by
  exact ⟨rfl, rfl, rfl⟩

/-! ## Claim C3: dict semantics of the store -/

namespace CaptureOps

theorem on_request_ops (h : String → String) (st : CState) (req : GRequest) :
    (on_request h st req).ops =
      match acceptedRecord h req with
      | none => st.ops
      | some kv => upsert st.ops kv.1 kv.2 := by
  unfold on_request acceptedRecord
  by_cases h1 : req.url ≠ "https://app.copilot.money/api/graphql"
  · rw [if_pos h1, if_pos h1]
  · rw [if_neg h1, if_neg h1]
    by_cases h2 : pyUpper req.method ≠ "POST"
    · rw [if_pos h2, if_pos h2]
    · rw [if_neg h2, if_neg h2]
      cases hj : _try_request_json req with
      | none => rfl
      | some payload =>
        dsimp only
        cases hq : jGet payload "query" with
        | none => rfl
        | some v =>
          cases v with
          | jstr q =>
            dsimp only
            by_cases hi : introspectionHit q
            · simp [hi]
            · simp [hi]
          | jnull => rfl
          | jbool b => rfl
          | jnum n => rfl
          | jarr a => rfl
          | jobj o => rfl

theorem upsert_keys (d : List (String × CapturedOperation)) (k : String)
    (v : CapturedOperation) :
    (upsert d k v).map Prod.fst =
      if k ∈ d.map Prod.fst then d.map Prod.fst
      else d.map Prod.fst ++ [k] := by
  induction d with
  | nil => simp [upsert]
  | cons p rest ih =>
    by_cases hpk : p.1 = k
    · simp [upsert, hpk]
    · have hkp : ¬ k = p.1 := fun hh => hpk hh.symm
      simp only [upsert, if_neg hpk, List.map_cons, ih, List.mem_cons]
      by_cases hk : k ∈ rest.map Prod.fst
      · simp [hk, hkp]
      · simp [hk, hkp]

theorem upsert_nodup (d : List (String × CapturedOperation)) (k : String)
    (v : CapturedOperation) (h : (d.map Prod.fst).Nodup) :
    ((upsert d k v).map Prod.fst).Nodup := by
  rw [upsert_keys]
  by_cases hk : k ∈ d.map Prod.fst
  · simpa [hk] using h
  · rw [if_neg hk]
    refine List.Nodup.append h (List.nodup_singleton k) ?_
    intro a ha hb
    rw [List.mem_singleton] at hb
    subst hb
    exact hk ha

theorem upsert_lookup (d : List (String × CapturedOperation)) (k : String)
    (v : CapturedOperation) (x : String) :
    lookupStore (upsert d k v) x = if x = k then some v else lookupStore d x := by
  induction d with
  | nil =>
    by_cases hx : x = k
    · simp [upsert, lookupStore, hx]
    · have hkx : ¬ k = x := fun hh => hx hh.symm
      simp [upsert, lookupStore, hx, hkx]
  | cons p rest ih =>
    by_cases hpk : p.1 = k
    · by_cases hx : x = k
      · simp [upsert, lookupStore, hpk, hx]
      · have hkx : ¬ k = x := fun hh => hx hh.symm
        have hpx : ¬ p.1 = x := by rw [hpk]; exact hkx
        simp [upsert, lookupStore, hpk, hx, hkx, hpx]
    · by_cases hpx : p.1 = x
      · have hx : ¬ x = k := by
          intro hh
          rw [hh] at hpx
          exact hpk hpx
        simp [upsert, lookupStore, hpk, hpx, hx]
      · simp [upsert, lookupStore, hpk, hpx, ih]

theorem applyInserts_cons (d : List (String × CapturedOperation))
    (p : String × CapturedOperation) (ins : List (String × CapturedOperation)) :
    applyInserts d (p :: ins) = applyInserts (upsert d p.1 p.2) ins := rfl

theorem applyInserts_mem_keys (ins : List (String × CapturedOperation)) :
    ∀ d k, k ∈ (applyInserts d ins).map Prod.fst ↔
      (k ∈ d.map Prod.fst ∨ k ∈ ins.map Prod.fst) := by
  induction ins with
  | nil => intro d k; simp [applyInserts]
  | cons p ins ih =>
    intro d k
    rw [applyInserts_cons, ih, upsert_keys]
    by_cases hm : p.1 ∈ d.map Prod.fst
    · by_cases hk : k = p.1
      · subst hk; simp [hm]
      · simp [hm, hk]
    · by_cases hk : k = p.1
      · subst hk; simp [hm]
      · simp [hm, hk]

theorem applyInserts_nodup (ins : List (String × CapturedOperation)) :
    ∀ d, (d.map Prod.fst).Nodup → ((applyInserts d ins).map Prod.fst).Nodup := by
  induction ins with
  | nil => intro d hd; exact hd
  | cons p ins ih =>
    intro d hd
    exact ih _ (upsert_nodup d p.1 p.2 hd)

theorem applyInserts_lookup (ins : List (String × CapturedOperation)) :
    ∀ d k, lookupStore (applyInserts d ins) k =
      match lastInserted ins k with
      | some v => some v
      | none => lookupStore d k := by
  induction ins with
  | nil => intro d k; simp [applyInserts, lastInserted]
  | cons p ins ih =>
    intro d k
    rw [applyInserts_cons, ih]
    cases hli : lastInserted ins k with
    | some v => simp [lastInserted, hli]
    | none =>
      by_cases hpk : p.1 = k
      · simp [lastInserted, hli, hpk, upsert_lookup]
      · have hkp : ¬ k = p.1 := fun hh => hpk hh.symm
        simp [lastInserted, hli, hpk, hkp, upsert_lookup]

theorem runCapture_ops_aux (h : String → String) (rs : List GRequest) :
    ∀ st, (List.foldl (on_request h) st rs).ops
      = applyInserts st.ops (rs.filterMap (acceptedRecord h)) := by
  induction rs with
  | nil => intro st; rfl
  | cons r rs ih =>
    intro st
    rw [List.foldl_cons, ih (on_request h st r), List.filterMap_cons]
    have hops := on_request_ops h st r
    cases ha : acceptedRecord h r with
    | none => rw [ha] at hops; rw [hops]
    | some kv => rw [ha] at hops; rw [hops, applyInserts_cons]

end CaptureOps

/-- C3: after processing any request stream, the store has pairwise distinct
StableId keys, those keys are exactly the StableIds of the accepted
requests, the store size is the cardinality of the SET of accepted StableIds
(hence independent of arrival order and duplicate counts), and the entry
under each StableId is the record of the most recently accepted request with
that StableId. -/
theorem C3_store_dedup_last_write (h : String → String)
    (rs : List CaptureOps.GRequest) :
    ((CaptureOps.runCapture h rs).ops.map Prod.fst).Nodup
    ∧ (∀ k, k ∈ (CaptureOps.runCapture h rs).ops.map Prod.fst ↔
        k ∈ (rs.filterMap (CaptureOps.acceptedRecord h)).map Prod.fst)
    ∧ (CaptureOps.runCapture h rs).ops.length
      = ((rs.filterMap (CaptureOps.acceptedRecord h)).map Prod.fst).toFinset.card
    ∧ (∀ k, CaptureOps.lookupStore (CaptureOps.runCapture h rs).ops k
        = CaptureOps.lastInserted (rs.filterMap (CaptureOps.acceptedRecord h)) k) := by
  have hops : (CaptureOps.runCapture h rs).ops
      = CaptureOps.applyInserts [] (rs.filterMap (CaptureOps.acceptedRecord h)) :=
    CaptureOps.runCapture_ops_aux h rs CaptureOps.initCState
  have hnd : ((CaptureOps.runCapture h rs).ops.map Prod.fst).Nodup := by
    rw [hops]
    exact CaptureOps.applyInserts_nodup _ [] (by simp)
  have hmem : ∀ k, k ∈ (CaptureOps.runCapture h rs).ops.map Prod.fst ↔
      k ∈ (rs.filterMap (CaptureOps.acceptedRecord h)).map Prod.fst := by
    intro k
    rw [hops, CaptureOps.applyInserts_mem_keys]
    simp
  refine ⟨hnd, hmem, ?_, ?_⟩
  · have hcard : ((CaptureOps.runCapture h rs).ops.map Prod.fst).toFinset
        = ((rs.filterMap (CaptureOps.acceptedRecord h)).map Prod.fst).toFinset := by
      ext k
      simpa [List.mem_toFinset] using hmem k
    calc (CaptureOps.runCapture h rs).ops.length
        = ((CaptureOps.runCapture h rs).ops.map Prod.fst).length := by
          rw [List.length_map]
      _ = ((CaptureOps.runCapture h rs).ops.map Prod.fst).toFinset.card :=
          (List.toFinset_card_of_nodup hnd).symm
      _ = ((rs.filterMap (CaptureOps.acceptedRecord h)).map Prod.fst).toFinset.card := by
          rw [hcard]
  · intro k
    rw [hops, CaptureOps.applyInserts_lookup]
    cases CaptureOps.lastInserted (rs.filterMap (CaptureOps.acceptedRecord h)) k with
    | none => simp [CaptureOps.lookupStore]
    | some v => simp

/-! ## Claim C7: variable values never influence the capture -/

theorem pySortedStrings_eq_of_perm {l1 l2 : List String} (hp : l1.Perm l2) :
    pySortedStrings l1 = pySortedStrings l2 := by
  have htr : ∀ (a b c : String), (decide (a ≤ b)) = true →
      (decide (b ≤ c)) = true → (decide (a ≤ c)) = true := by
    intro a b c hab hbc
    simp only [decide_eq_true_eq] at *
    exact le_trans hab hbc
  have htot : ∀ (a b : String), ((decide (a ≤ b)) || (decide (b ≤ a))) = true := by
    intro a b
    rcases le_total a b with hle | hle <;> simp [hle]
  have hs1 : (pySortedStrings l1).Sorted (· ≤ ·) :=
    (List.sorted_mergeSort htr htot l1).imp (fun hab => by simpa using hab)
  have hs2 : (pySortedStrings l2).Sorted (· ≤ ·) :=
    (List.sorted_mergeSort htr htot l2).imp (fun hab => by simpa using hab)
  exact List.eq_of_perm_of_sorted
    ((List.mergeSort_perm l1 _).trans (hp.trans (List.mergeSort_perm l2 _).symm))
    hs1 hs2

/-- C7: two requests that agree on URL, method, and every consulted body
field except the VALUES bound in their `variables` objects (the key multisets
agree up to order) lead the interceptor to the very same state: identical
CapturedOperation, identical store, identical counters.  Variable values
never influence or appear in the stored artifact. -/
theorem C7_variable_values_ignored (h : String → String)
    (st : CaptureOps.CState) (r1 r2 : CaptureOps.GRequest)
    (p1 p2 fs1 fs2 : List (String × JVal))
    (hurl : r1.url = r2.url) (hm : r1.method = r2.method)
    (hb1 : CaptureOps._try_request_json r1 = some p1)
    (hb2 : CaptureOps._try_request_json r2 = some p2)
    (hq : jGet p1 "query" = jGet p2 "query")
    (hop : jGet p1 "operationName" = jGet p2 "operationName")
    (hv1 : jGet p1 "variables" = some (JVal.jobj fs1))
    (hv2 : jGet p2 "variables" = some (JVal.jobj fs2))
    (hkeys : (fs1.map Prod.fst).Perm (fs2.map Prod.fst)) :
    CaptureOps.on_request h st r1 = CaptureOps.on_request h st r2 := by
  have hbr : ∀ q, CaptureOps.buildRecord h r1 p1 q
      = CaptureOps.buildRecord h r2 p2 q := by
    intro q
    unfold CaptureOps.buildRecord CaptureOps.deriveOperationName
      CaptureOps.deriveVariableKeys
    rw [hop, hurl, hm, hv1, hv2]
    dsimp only
    rw [pySortedStrings_eq_of_perm hkeys]
  unfold CaptureOps.on_request
  rw [hurl, hm, hb1, hb2]
  dsimp only
  rw [hq]
  simp only [hbr]

/-- Witness for C7: two concrete requests whose `variables` objects bind the
same keys (in different order) to entirely different values produce the same
state. -/
theorem C7_witness :
    ((([("a", JVal.jnum 1), ("b", JVal.jstr "u")] : List (String × JVal)).map
        Prod.fst).Perm
      (([("b", JVal.jnull), ("a", JVal.jstr "zzz")] : List (String × JVal)).map
        Prod.fst))
    ∧ CaptureOps.on_request (fun s => s) CaptureOps.initCState
        { url := "https://app.copilot.money/api/graphql", method := "POST",
          postJson := some (JVal.jobj
            [("query", JVal.jstr "query Q { f }"),
             ("operationName", JVal.jstr "Q"),
             ("variables", JVal.jobj
               [("a", JVal.jnum 1), ("b", JVal.jstr "u")])]) }
      = CaptureOps.on_request (fun s => s) CaptureOps.initCState
        { url := "https://app.copilot.money/api/graphql", method := "POST",
          postJson := some (JVal.jobj
            [("query", JVal.jstr "query Q { f }"),
             ("operationName", JVal.jstr "Q"),
             ("variables", JVal.jobj
               [("b", JVal.jnull), ("a", JVal.jstr "zzz")])]) } := by
  refine ⟨by decide, ?_⟩
  exact C7_variable_values_ignored (fun s => s) CaptureOps.initCState _ _
    _ _ [("a", JVal.jnum 1), ("b", JVal.jstr "u")]
    [("b", JVal.jnull), ("a", JVal.jstr "zzz")]
    rfl rfl rfl rfl rfl rfl rfl rfl (by decide)

/-! ## Lemmas about the token extractor -/

theorem gt_on_request_some (t : String) (req : GetToken.TRequest) :
    GetToken.on_request (some t) req = some t := rfl

theorem gt_foldl_some (rs : List GetToken.TRequest) (t : String) :
    List.foldl GetToken.on_request (some t) rs = some t := by
  induction rs with
  | nil => rfl
  | cons r rs ih => simpa [List.foldl_cons, gt_on_request_some] using ih

theorem gt_on_request_none (req : GetToken.TRequest) :
    GetToken.on_request none req = GetToken.capturedToken req := by
  unfold GetToken.on_request GetToken.capturedToken
  cases ha : req.authorization with
  | none =>
    by_cases hu : GetToken.pyStartswith req.url
        "https://app.copilot.money/api/graphql" = false
    · simp [hu]
    · simp [hu]
  | some auth =>
    by_cases hu : GetToken.pyStartswith req.url
        "https://app.copilot.money/api/graphql" = false
    · simp [hu]
    · have hu2 : GetToken.pyStartswith req.url
          "https://app.copilot.money/api/graphql" = true := by
        simpa using hu
      by_cases he : auth = ""
      · simp [hu, hu2, he]
      · simp [hu, hu2, he]

theorem runToken_eq_firstCaptured (rs : List GetToken.TRequest) :
    GetToken.runToken rs = GetToken.firstCaptured rs := by
  induction rs with
  | nil => rfl
  | cons r rs ih =>
    have h1 : GetToken.runToken (r :: rs)
        = List.foldl GetToken.on_request (GetToken.on_request none r) rs := rfl
    rw [h1, gt_on_request_none]
    cases hc : GetToken.capturedToken r with
    | none =>
      have h2 : GetToken.firstCaptured (r :: rs) = GetToken.firstCaptured rs := by
        simp [GetToken.firstCaptured, hc]
      rw [h2, ← ih]
      rfl
    | some t =>
      have h2 : GetToken.firstCaptured (r :: rs) = some t := by
        simp [GetToken.firstCaptured, hc]
      rw [h2]
      exact gt_foldl_some rs t

theorem capturedToken_eq_none (r : GetToken.TRequest)
    (hq : GetToken.qualifies r = false) : GetToken.capturedToken r = none := by
  unfold GetToken.qualifies at hq
  unfold GetToken.capturedToken
  cases ha : r.authorization with
  | none => rfl
  | some auth =>
    rw [ha] at hq
    by_cases hu : GetToken.pyStartswith r.url
        "https://app.copilot.money/api/graphql" = true
    · rw [hu] at hq
      simp only [Bool.true_and] at hq
      by_cases he : auth = ""
      · simp [hu, he]
      · cases hs : GetToken.splitOnFirstSpace auth.data with
        | none => simp [hu, he, hs]
        | some parts =>
          rw [hs] at hq
          simp only [he, decide_False, Bool.not_false, Bool.true_and] at hq
          have hb : ¬ pyLower ⟨parts.1⟩ = "bearer" := of_decide_eq_false hq
          simp [hu, he, hs, hb]
    · have hu2 : GetToken.pyStartswith r.url
          "https://app.copilot.money/api/graphql" = false := by
        simpa using hu
      simp [hu2]

theorem firstCaptured_append_none (rs1 l : List GetToken.TRequest)
    (h : ∀ x ∈ rs1, GetToken.capturedToken x = none) :
    GetToken.firstCaptured (rs1 ++ l) = GetToken.firstCaptured l := by
  induction rs1 with
  | nil => rfl
  | cons x xs ih =>
    have hx := h x (List.mem_cons_self _ _)
    have hxs := fun y hy => h y (List.mem_cons_of_mem _ hy)
    simp [GetToken.firstCaptured, hx, ih hxs]

theorem capturedToken_of_parts (r : GetToken.TRequest) (auth : String)
    (p0 p1 : List Char)
    (hurl : GetToken.pyStartswith r.url
      "https://app.copilot.money/api/graphql" = true)
    (ha : r.authorization = some auth)
    (hsplit : GetToken.splitOnFirstSpace auth.data = some (p0, p1))
    (hbear : pyLower ⟨p0⟩ = "bearer") :
    GetToken.capturedToken r = some (pyStrip ⟨p1⟩) := by
  have hne : ¬ auth = "" := by
    intro he
    rw [he] at hsplit
    exact Option.noConfusion hsplit
  unfold GetToken.capturedToken
  rw [ha]
  simp [hurl, hne, hsplit, hbear]

theorem runToken_first_qualifying (rs1 rs2 : List GetToken.TRequest)
    (r : GetToken.TRequest) (auth : String) (p0 p1 : List Char)
    (hq1 : ∀ x ∈ rs1, GetToken.qualifies x = false)
    (hurl : GetToken.pyStartswith r.url
      "https://app.copilot.money/api/graphql" = true)
    (ha : r.authorization = some auth)
    (hsplit : GetToken.splitOnFirstSpace auth.data = some (p0, p1))
    (hbear : pyLower ⟨p0⟩ = "bearer") :
    GetToken.runToken (rs1 ++ r :: rs2) = some (pyStrip ⟨p1⟩) := by
  rw [runToken_eq_firstCaptured,
    firstCaptured_append_none rs1 (r :: rs2)
      (fun x hx => capturedToken_eq_none x (hq1 x hx))]
  simp [GetToken.firstCaptured,
    capturedToken_of_parts r auth p0 p1 hurl ha hsplit hbear]

theorem pyStrip_allws (w : List Char) (hw : ∀ c ∈ w, py_isspace c = true) :
    pyStrip ⟨w⟩ = "" := by
  unfold pyStrip pyStripChars
  have h1 : w.dropWhile py_isspace = [] := by
    rw [List.dropWhile_eq_nil_iff]
    exact hw
  show (⟨((w.dropWhile py_isspace).reverse.dropWhile py_isspace).reverse⟩ : String) = ""
  rw [h1]
  rfl

/-! ## Claims C4, C5, C8, C10 -/

/-- C4: the token cell after processing a stream whose first qualifying
request (URL check passed, Authorization present and splitting on the first
space into a case-insensitive `Bearer` part and a remainder) carries
`some auth` equals the TRIMMED remainder of that first request, regardless
of how many qualifying requests follow and of their values; and a set token
is never overwritten by any request. -/
theorem C4_token_write_once (rs1 rs2 : List GetToken.TRequest)
    (r : GetToken.TRequest) (auth : String) (p0 p1 : List Char)
    (hq1 : ∀ x ∈ rs1, GetToken.qualifies x = false)
    (hurl : GetToken.pyStartswith r.url
      "https://app.copilot.money/api/graphql" = true)
    (ha : r.authorization = some auth)
    (hsplit : GetToken.splitOnFirstSpace auth.data = some (p0, p1))
    (hbear : pyLower ⟨p0⟩ = "bearer") :
    GetToken.runToken (rs1 ++ r :: rs2) = some (pyStrip ⟨p1⟩)
    ∧ ∀ (t : String) (u : GetToken.TRequest),
        GetToken.on_request (some t) u = some t :=
  ⟨runToken_first_qualifying rs1 rs2 r auth p0 p1 hq1 hurl ha hsplit hbear,
   fun _ _ => rfl⟩

/-- Witness for C4: one non-qualifying request, then a qualifying request
with token `tok1` (padded), then a later qualifying request with a different
token; the cell holds the trimmed first token. -/
theorem C4_witness :
    GetToken.splitOnFirstSpace ("Bearer  tok1 ").data
      = some (("Bearer").data, (" tok1 ").data)
    ∧ GetToken.runToken
        ([⟨"https://app.copilot.money/other", "GET", none⟩] ++
          (⟨"https://app.copilot.money/api/graphql", "POST",
            some "Bearer  tok1 "⟩ : GetToken.TRequest) ::
          [⟨"https://app.copilot.money/api/graphql", "POST",
            some "Bearer tok2"⟩])
      = some (pyStrip ⟨(" tok1 ").data⟩) := by
  refine ⟨by decide, ?_⟩
  exact (C4_token_write_once
    [⟨"https://app.copilot.money/other", "GET", none⟩]
    [⟨"https://app.copilot.money/api/graphql", "POST", some "Bearer tok2"⟩]
    ⟨"https://app.copilot.money/api/graphql", "POST", some "Bearer  tok1 "⟩
    "Bearer  tok1 " ("Bearer").data (" tok1 ").data
    (by decide) (by decide) rfl (by decide) (by decide)).1

/-- C5 counterexample: a GET request whose URL merely EXTENDS the endpoint
is inspected and sets the token, so the callback is not a no-op on URLs
different from the exact endpoint, and non-POST requests are inspected. -/
theorem C5_counterexample :
    GetToken.on_request none
      ⟨"https://app.copilot.money/api/graphql?op=x", "GET", some "Bearer tok"⟩
      = some "tok"
    ∧ ("https://app.copilot.money/api/graphql?op=x" : String)
      ≠ "https://app.copilot.money/api/graphql" := by
  exact ⟨by decide, by decide⟩

/-- C5 amended: the token callback is a no-op unless the request URL STARTS
WITH the endpoint URL, and the request method is never consulted at all. -/
theorem C5_amended (tok : Option String) (r : GetToken.TRequest)
    (hu : GetToken.pyStartswith r.url
      "https://app.copilot.money/api/graphql" = false) :
    GetToken.on_request tok r = tok
    ∧ ∀ (t2 : Option String) (r2 : GetToken.TRequest) (m : String),
        GetToken.on_request t2 ⟨r2.url, m, r2.authorization⟩
          = GetToken.on_request t2 r2 := by
  constructor
  · cases tok with
    | some t => rfl
    | none =>
      unfold GetToken.on_request
      simp [hu]
  · intro t2 r2 m
    cases t2 with
    | some t => rfl
    | none => rfl

/-- Witness for C5 amended: a request to an unrelated URL leaves the unset
cell unchanged. -/
theorem C5_amended_witness :
    GetToken.pyStartswith "https://example.org/login"
      "https://app.copilot.money/api/graphql" = false
    ∧ GetToken.on_request (none : Option String)
        ⟨"https://example.org/login", "POST", some "Bearer tok"⟩ = none := by
  refine ⟨by decide, ?_⟩
  exact (C5_amended none
    ⟨"https://example.org/login", "POST", some "Bearer tok"⟩ (by decide)).1

/-- C8 counterexample: the token cell can be set (a token was captured
before the deadline) while the tool still exits non-zero — the empty
captured token.  This refutes the claim that any capture implies exit 0. -/
theorem C8_counterexample :
    GetToken.finishRun (some "") = ⟨1, "", true⟩
    ∧ (GetToken.finishRun (some "")).exitCode ≠ 0
    ∧ (some "" : Option String) ≠ none := by
  exact ⟨rfl, by decide, by decide⟩

/-- C8 amended: when a NON-EMPTY token is captured before the deadline the
tool exits 0 with stdout exactly the token bytes (no trailing newline, no
failure report); when no qualifying request arrives before the deadline the
cell stays unset and the tool exits non-zero, writes no token bytes to
stdout, and reports the capture failure on the error stream. -/
theorem C8_amended (rs : List GetToken.TRequest) (t : String) (ht : ¬ t = "")
    (hnoq : ∀ x ∈ rs, GetToken.qualifies x = false) :
    GetToken.finishRun (some t) = ⟨0, t, false⟩
    ∧ GetToken.runToken rs = none
    ∧ GetToken.finishRun (GetToken.runToken rs) = ⟨1, "", true⟩ := by
  have hnone : GetToken.runToken rs = none := by
    rw [runToken_eq_firstCaptured, ← List.append_nil rs,
      firstCaptured_append_none rs []
        (fun x hx => capturedToken_eq_none x (hnoq x hx))]
    rfl
  refine ⟨?_, hnone, by rw [hnone]; rfl⟩
  unfold GetToken.finishRun
  simp [ht]

/-- Witness for C8 amended: a non-empty token and a stream with no
qualifying request. -/
theorem C8_amended_witness :
    ¬ ("tok0" : String) = ""
    ∧ GetToken.finishRun (some "tok0") = ⟨0, "tok0", false⟩
    ∧ GetToken.finishRun (GetToken.runToken
        [⟨"https://example.org/", "GET", none⟩]) = ⟨1, "", true⟩ := by
  have h := C8_amended [⟨"https://example.org/", "GET", none⟩] "tok0"
    (by decide) (by decide)
  exact ⟨by decide, h.1, h.2.2⟩

/-- C10: if the first qualifying request carries `Bearer`, a space, and only
whitespace, the cell is set to the EMPTY string, no later request (whatever
token it carries) is ever recorded, and the tool exits non-zero with a
capture-failure report on the error stream. -/
theorem C10_empty_token_blocks (rs1 rs2 : List GetToken.TRequest)
    (r : GetToken.TRequest) (auth : String) (w : List Char)
    (hq1 : ∀ x ∈ rs1, GetToken.qualifies x = false)
    (hurl : GetToken.pyStartswith r.url
      "https://app.copilot.money/api/graphql" = true)
    (ha : r.authorization = some auth)
    (hsplit : GetToken.splitOnFirstSpace auth.data
      = some (("Bearer").data, w))
    (hws : ∀ c ∈ w, py_isspace c = true) :
    GetToken.runToken (rs1 ++ r :: rs2) = some ""
    ∧ GetToken.finishRun (GetToken.runToken (rs1 ++ r :: rs2))
      = ⟨1, "", true⟩ := by
  have hbear : pyLower ⟨("Bearer").data⟩ = "bearer" := by decide
  have hrun := runToken_first_qualifying rs1 rs2 r auth ("Bearer").data w
    hq1 hurl ha hsplit hbear
  rw [pyStrip_allws w hws] at hrun
  exact ⟨hrun, by rw [hrun]; rfl⟩

/-- Witness for C10: first qualifying request with value `Bearer` + three
spaces, a later qualifying request with a real token; the cell ends empty
and the run fails. -/
theorem C10_witness :
    GetToken.splitOnFirstSpace ("Bearer   ").data
      = some (("Bearer").data, ("  ").data)
    ∧ GetToken.runToken
        ((⟨"https://app.copilot.money/api/graphql", "POST",
            some "Bearer   "⟩ : GetToken.TRequest) ::
          [⟨"https://app.copilot.money/api/graphql", "POST",
            some "Bearer realtoken"⟩])
      = some ""
    ∧ GetToken.finishRun (GetToken.runToken
        ((⟨"https://app.copilot.money/api/graphql", "POST",
            some "Bearer   "⟩ : GetToken.TRequest) ::
          [⟨"https://app.copilot.money/api/graphql", "POST",
            some "Bearer realtoken"⟩]))
      = ⟨1, "", true⟩ := by
  have h := C10_empty_token_blocks []
    [⟨"https://app.copilot.money/api/graphql", "POST", some "Bearer realtoken"⟩]
    ⟨"https://app.copilot.money/api/graphql", "POST", some "Bearer   "⟩
    "Bearer   " ("  ").data (by decide) (by decide) rfl (by decide) (by decide)
  exact ⟨by decide, h.1, h.2⟩

/-! ## Claim C9: artifact file naming -/

theorem subRunsAux_eq_collapseAux :
    ∀ (l : List Char) (prev : Option Char) (b : Bool),
      (b = match prev with
        | none => false
        | some p => !isSafeChar p) →
      subRunsAux b l = collapseAux prev l := by
  intro l
  induction l with
  | nil => intro prev b hb; rfl
  | cons c cs ih =>
    intro prev b hb
    by_cases hc : isSafeChar c = true
    · rw [show subRunsAux b (c :: cs) = c :: subRunsAux false cs from by
        simp [subRunsAux, hc]]
      rw [show collapseAux prev (c :: cs) = c :: collapseAux (some c) cs from by
        simp [collapseAux, hc]]
      rw [ih (some c) false (by simp [hc])]
    · have hc2 : isSafeChar c = false := by simpa using hc
      cases prev with
      | none =>
        have hb2 : b = false := hb
        rw [hb2]
        simp [subRunsAux, collapseAux, hc2, ih (some c) true (by simp [hc2])]
      | some p =>
        by_cases hp : isSafeChar p = true
        · have hb2 : b = false := by rw [hb]; simp [hp]
          rw [hb2]
          simp [subRunsAux, collapseAux, hc2, hp,
            ih (some c) true (by simp [hc2])]
        · have hp2 : isSafeChar p = false := by simpa using hp
          have hb2 : b = true := by rw [hb]; simp [hp2]
          rw [hb2]
          simp [subRunsAux, collapseAux, hc2, hp2,
            ih (some c) true (by simp [hc2])]

theorem safe_filename_eq_amendedSanitize (s : String) :
    safe_filename s = amendedSanitize s := by
  unfold safe_filename amendedSanitize
  by_cases he : pyStrip s = ""
  · simp [he]
  · rw [if_neg he, if_neg he]
    rw [← subRunsAux_eq_collapseAux (pyStrip s).data none false rfl]
    by_cases hl : (⟨subRunsAux false (pyStrip s).data⟩ : String).length > 120
    · rw [if_pos hl]
    · rw [if_neg hl]
      have hle : (subRunsAux false (pyStrip s).data).length ≤ 120 :=
        le_of_not_lt hl
      rw [List.take_of_length_le hle]

theorem splitAll_ne_nil (sep : Char) (l : List Char) :
    CaptureOps.splitAll sep l ≠ [] := by
  cases l with
  | nil => simp [CaptureOps.splitAll]
  | cons c cs =>
    simp only [CaptureOps.splitAll]
    by_cases hc : c = sep
    · simp [hc]
    · cases h : CaptureOps.splitAll sep cs with
      | nil => simp [hc, h]
      | cons w ws => simp [hc, h]

theorem splitAll_append (sep : Char) (l1 l2 : List Char) :
    CaptureOps.splitAll sep (l1 ++ sep :: l2)
      = CaptureOps.splitAll sep l1 ++ CaptureOps.splitAll sep l2 := by
  induction l1 with
  | nil => simp [CaptureOps.splitAll]
  | cons c cs ih =>
    by_cases hc : c = sep
    · simp [CaptureOps.splitAll, hc, ih]
    · cases h : CaptureOps.splitAll sep cs with
      | nil => exact absurd h (splitAll_ne_nil sep cs)
      | cons w ws =>
        rw [show ((c :: cs) ++ sep :: l2) = c :: (cs ++ sep :: l2) from rfl]
        simp only [CaptureOps.splitAll, ih, h]
        simp [hc]

theorem splitAll_no_sep (sep : Char) (l : List Char)
    (h : ∀ c ∈ l, ¬ c = sep) : CaptureOps.splitAll sep l = [l] := by
  induction l with
  | nil => rfl
  | cons c cs ih =>
    have hc := h c (List.mem_cons_self _ _)
    have hcs := ih (fun d hd => h d (List.mem_cons_of_mem _ hd))
    simp [CaptureOps.splitAll, hc, hcs]

theorem lastColonSeg_append (name digest : String)
    (hd : ∀ c ∈ digest.data, ¬ c = (Char.ofNat 58)) :
    CaptureOps.lastColonSeg (name ++ ":" ++ digest) = digest := by
  unfold CaptureOps.lastColonSeg
  have hdata : (name ++ ":" ++ digest).data
      = name.data ++ (Char.ofNat 58) :: digest.data := by
    have hcolon : (":" : String).data = [(Char.ofNat 58)] := by decide
    rw [String.data_append, String.data_append, hcolon]
    simp
  rw [hdata, splitAll_append, splitAll_no_sep (Char.ofNat 58) digest.data hd,
    List.getLast?_concat]
  rfl

/-- C9 counterexample: `safe_filename` does not replace EACH character
outside the class by an underscore — a maximal run collapses to a single
underscore (the source pattern carries a `+`) — so the claimed sanitization
disagrees with the code already on the name `a!!b`. -/
theorem C9_counterexample :
    safe_filename "a!!b" = "a_b"
    ∧ claimSanitize "a!!b" = "a__b"
    ∧ safe_filename "a!!b" ≠ claimSanitize "a!!b" := by
  exact ⟨by decide, by decide, by decide⟩

/-- C9 amended: the per-operation artifact file is named
`<sanitized operationName>--<first-16-hex-of-hash>.<ext>` with `<ext>` equal
to `graphql`, where sanitization STRIPS leading/trailing whitespace, maps an
empty result to `unknown`, replaces each maximal RUN of characters outside
`[A-Za-z0-9._-]` by a single underscore, and truncates to 120 characters;
the digest part is the first 16 hex characters of the content hash of the
normalized query (the hash output being colon-free). -/
theorem C9_amended (h : String → String) (name q kind url method : String)
    (vks : List String)
    (hhex : ∀ c ∈ ((h (_normalize_query q)).data.take 16),
      ¬ c = (Char.ofNat 58)) :
    CaptureOps.artifactFileName h
      { operationName := name, stableId := _stable_id h name q, kind := kind,
        url := url, method := method, variableKeys := vks, query := q }
      = amendedSanitize name ++ "--"
        ++ (⟨(h (_normalize_query q)).data.take 16⟩ : String) ++ ".graphql"
    ∧ safe_filename name = amendedSanitize name := by
  have hsan := safe_filename_eq_amendedSanitize name
  constructor
  · unfold CaptureOps.artifactFileName
    have hform : _stable_id h name q
        = name ++ ":" ++ (⟨(h (_normalize_query q)).data.take 16⟩ : String) :=
      rfl
    have hne : ¬ _stable_id h name q = "" := by
      intro he
      rw [hform] at he
      have hdata := congrArg String.data he
      rw [String.data_append, String.data_append] at hdata
      have hcolon : (":" : String).data = [(Char.ofNat 58)] := by decide
      rw [hcolon] at hdata
      simp at hdata
    dsimp only
    rw [if_neg hne, hform,
      lastColonSeg_append name (⟨(h (_normalize_query q)).data.take 16⟩ : String)
        (by simpa using hhex),
      hsan]
  · exact hsan

/-- Witness for C9 amended at a concrete hash, name, and query. -/
theorem C9_amended_witness :
    (∀ c ∈ (("0123456789abcdef" : String).data.take 16),
      ¬ c = (Char.ofNat 58))
    ∧ CaptureOps.artifactFileName (fun _ => "0123456789abcdef")
        { operationName := " My Op! ",
          stableId := _stable_id (fun _ => "0123456789abcdef") " My Op! "
            " query X ",
          kind := "unknown", url := "https://app.copilot.money/api/graphql",
          method := "POST", variableKeys := [], query := " query X " }
      = amendedSanitize " My Op! " ++ "--"
        ++ (⟨(("0123456789abcdef" : String)).data.take 16⟩ : String)
        ++ ".graphql" := by
  refine ⟨by decide, ?_⟩
  exact (C9_amended (fun _ => "0123456789abcdef") " My Op! " " query X "
    "unknown" "https://app.copilot.money/api/graphql" "POST" []
    (by decide)).1
